import Mathlib

/-!
Verification of the automation dispatch engine of the `home_control` repository.

The subject of this development is the set of four automation policies
(`single`, `queued`, `cancel`, `parallel` in
`src/crates/control/src/automations/`), the `AutomationSet` size/materialize
contract (`src/crates/control/src/automations.rs` plus the macro
`src/crates/macros-impl/src/automation_set.rs`), and the scheduler entry
points (`run_automations`, `Manager::start` in `src/src/lib.rs`, and the
signal listener of `src/crates/control/src/manager.rs`).

The Rust code is asynchronous.  It is embedded here as a deterministic
discrete-time model:

* the trigger stream is a finite script `List (Ev α)`; entry `⟨a, some t⟩`
  means the stream yields trigger `t`, first becoming ready at time `a`
  (`poll_next` returns `Ready(Some t)` at any time `≥ a`, `Pending` before);
  entry `⟨a, none⟩` means the stream yields its closed signal (`Ready(None)`)
  at time `a`.  After the script is exhausted the stream is pending forever,
  so an `await` on it never resolves.
* an action is a pair `Act α` of a duration function (how long an invocation
  of the action on a trigger runs before resolving) and an outcome function
  (the invocation resolves with `Ok(())`, resolves with `Err(msg)`, or
  panics at its resolution point).
* a run loop is interpreted to an `Except` value: `.ok (trace, done)` means
  the loop ran without unwinding, performing the invocations in `trace`;
  `done = true` means the run loop's future resolved (the loop returned),
  `done = false` means it is suspended forever on an await that can never
  complete; `.error trace` means a panic escaped an invocation and unwound
  the run-loop future after the invocations in `trace`.
-/

namespace HomeControl

/-- Outcome of one resolved action invocation: `run(trigger).await` in the
run loops returns `Ok(())`, returns `Err(msg)`, or panics (unwinds). -/
inductive Outcome where
  | ok : Outcome
  | err : String → Outcome
  | panicked : Outcome
deriving DecidableEq, Repr

/-- One entry of a trigger-stream script: at any time `≥ time` the stream's
`poll_next` answers `Ready`, with `val = some t` a trigger and `val = none`
the closed signal (`Ready(None)`). -/
structure Ev (α : Type) where
  time : Nat
  val : Option α
deriving DecidableEq, Repr

/-- An automation action, embedding the `AutomationAction` /
`AutomationMutAction` traits of `src/crates/control/src/automations.rs`:
invoked on trigger `t`, its future runs for `dur t` time units and then
produces `out t`. -/
structure Act (α : Type) where
  dur : α → Nat
  out : α → Outcome

/-- Record of one invocation performed by a run loop: the trigger passed to
the action, the time the invocation started, the time it stopped, and its
result — `some o` if the invocation's future resolved (or panicked) with
outcome `o`, `none` if the future was dropped (cancelled) at `stop` before
resolving, so that no side effect placed at its very end was observed. -/
structure Inv (α : Type) where
  trig : α
  start : Nat
  stop : Nat
  res : Option Outcome
deriving DecidableEq, Repr

/-- Result of interpreting a run loop, see the file comment. -/
abbrev RunRes (α : Type) := Except (List (Inv α)) (List (Inv α) × Bool)

/-- Prepend an invocation to the record of a run-loop result. -/
def consE (i : Inv α) : RunRes α → RunRes α
  | .error tr => .error (i :: tr)
  | .ok (tr, b) => .ok (i :: tr, b)

/-- The invocations recorded by a run-loop result, whether or not the loop
later unwound. -/
def traceOf : RunRes α → List (Inv α)
  | .error tr => tr
  | .ok (tr, _) => tr

/-- The `warn!("automation error: {error}")` log lines produced by a trace:
one entry per invocation that resolved with `Err(msg)`. -/
def logsOf (tr : List (Inv α)) : List String :=
  tr.filterMap fun i =>
    match i.res with
    | some (.err m) => some m
    | _ => none

/-- Embeds `Single::run` of `src/crates/control/src/automations/single.rs`.
The flag distinguishes the two waiting positions of the loop body:
`false` = at `self.input.next().await` (blocking wait for the next stream
item), `true` = inside the drain loop
`while poll_immediate(self.input.next()).await.is_some()` at time `now`
(the drain is non-blocking: it consumes an item exactly when the stream is
ready at `now`; note `.is_some()` holds for `Ready(Some _)` and for
`Ready(None)` alike, so the closed signal is consumed by the drain like a
trigger).  On a trigger the loop runs the action to completion, logging an
`Err` outcome and continuing; a panic unwinds the loop (`single.rs` has no
`catch_unwind`). -/
def singleGo (A : Act α) : List (Ev α) → Nat → Bool → RunRes α
  | [], _, _ => .ok ([], false)
  | e :: rest, now, true =>
    if e.time ≤ now then
      singleGo A rest now true
    else
      match e.val with
      | none => .ok ([], true)
      | some t =>
        let start := max now e.time
        let stop := start + A.dur t
        match A.out t with
        | .panicked => .error [⟨t, start, stop, some .panicked⟩]
        | o => consE ⟨t, start, stop, some o⟩ (singleGo A rest stop true)
  | e :: rest, now, false =>
    match e.val with
    | none => .ok ([], true)
    | some t =>
      let start := max now e.time
      let stop := start + A.dur t
      match A.out t with
      | .panicked => .error [⟨t, start, stop, some .panicked⟩]
      | o => consE ⟨t, start, stop, some o⟩ (singleGo A rest stop true)

/-- The run loop of the `single` policy, started at time 0 at
`self.input.next().await`. -/
def singleRun (A : Act α) (script : List (Ev α)) : RunRes α :=
  singleGo A script 0 false

/-- Embeds `Queued::run` of `src/crates/control/src/automations/queued.rs`:
`while let Some(trigger) = self.input.next().await { ... run ... }` — every
stream item is awaited in order, each invocation runs to completion before
the next item is taken, an `Err` outcome is logged and the loop continues,
and the loop returns exactly when the stream yields `None`. -/
def queuedRun (A : Act α) : List (Ev α) → Nat → RunRes α
  | [], _ => .ok ([], false)
  | ⟨_, none⟩ :: _, _ => .ok ([], true)
  | ⟨a, some t⟩ :: rest, now =>
    let start := max now a
    let stop := start + A.dur t
    match A.out t with
    | .panicked => .error [⟨t, start, stop, some .panicked⟩]
    | o => consE ⟨t, start, stop, some o⟩ (queuedRun A rest stop)

/-- Embeds the loop body of `Cancel::run` of
`src/crates/control/src/automations/cancel.rs` while an invocation of the
action on trigger `t`, started at `now`, is in flight.  The
`select_biased!` races the invocation (ready at `now + dur t`) against
`self.input.next()` (ready at `max now e.time` for the next script entry
`e`); on a tie the invocation wins because `select_biased!` polls `current`
first.  If `next` wins, the invocation's future is dropped unresolved
(`res = none`) and the loop either returns (stream closed) or immediately
starts an invocation for the new trigger. -/
def cancelGo (A : Act α) (t : α) (now : Nat) : List (Ev α) → RunRes α
  | [] =>
    match A.out t with
    | .panicked => .error [⟨t, now, now + A.dur t, some .panicked⟩]
    | o => .ok ([⟨t, now, now + A.dur t, some o⟩], false)
  | e :: rest =>
    let stop := now + A.dur t
    let ready := max now e.time
    if ready < stop then
      match e.val with
      | none => .ok ([⟨t, now, ready, none⟩], true)
      | some t2 => consE ⟨t, now, ready, none⟩ (cancelGo A t2 ready rest)
    else
      match A.out t with
      | .panicked => .error [⟨t, now, stop, some .panicked⟩]
      | o =>
        match e.val with
        | none => .ok ([⟨t, now, stop, some o⟩], true)
        | some t2 => consE ⟨t, now, stop, some o⟩ (cancelGo A t2 (max stop e.time) rest)

/-- The run loop of the `cancel` policy: `let mut next =
self.input.next().await;` then the loop; it returns when `next` is `None`. -/
def cancelRun (A : Act α) : List (Ev α) → RunRes α
  | [] => .ok ([], false)
  | ⟨_, none⟩ :: _ => .ok ([], true)
  | ⟨a, some t⟩ :: rest => cancelGo A t a rest

/-- Result of one `poll` call on a future. -/
inductive PollRes where
  | ready : PollRes
  | pending : PollRes
deriving DecidableEq, Repr

/-- State of `ParallelFuture` of
`src/crates/control/src/automations/parallel.rs`: the remaining stream
script, whether `input.is_terminated()` (the fused stream has yielded
`None`), the `running` vector of slots — a slot holds the trigger of the
in-flight invocation and the time its future resolves — and the `count`
field. -/
structure PSt (α : Type) where
  script : List (Ev α)
  closedSeen : Bool
  running : List (Option (α × Nat))
  count : Nat
deriving DecidableEq, Repr

/-- Embeds `running.first_mut().unwrap().replace(Box::pin(future))`: slot 0
is overwritten with the new invocation (the code reaches this only under
`count < running.len()`, so the list is non-empty there). -/
def replaceHead (l : List (Option β)) (x : β) : List (Option β) :=
  match l with
  | [] => []
  | _ :: rest => some x :: rest

/-- Embeds one `ParallelFuture::poll` call at time `τ`
(`src/crates/control/src/automations/parallel.rs`, `impl Future for
ParallelFuture`), in three steps exactly as in the source:
1. if `!input.is_terminated() && *count < running.len()` and polling the
   stream yields `Ready`, then on `Some(trigger)` a new invocation is
   stored in slot 0 (`running.first_mut().unwrap().replace(...)`) and
   `count` is incremented, while on `None` the fuse records termination;
2. every running slot whose future is ready is taken out and `count`
   decremented (its `Err` outcome would be logged, its slot set to `None`);
3. the poll returns `Ready` iff `input.is_terminated() && *count == 0`. -/
def parallelPoll (A : Act α) (st : PSt α) (τ : Nat) : PSt α × PollRes :=
  let st1 :=
    if st.closedSeen = false ∧ st.count < st.running.length then
      match st.script with
      | [] => st
      | e :: rest =>
        if e.time ≤ τ then
          match e.val with
          | some t =>
            { st with script := rest,
                      running := replaceHead st.running (t, τ + A.dur t),
                      count := st.count + 1 }
          | none => { st with script := rest, closedSeen := true }
        else st
    else st
  let finished := st1.running.countP fun s =>
    match s with
    | some (_, stop) => stop ≤ τ
    | none => false
  let st2 : PSt α :=
    { st1 with
      running := st1.running.map fun s =>
        match s with
        | some (_, stop) => if stop ≤ τ then none else s
        | none => none,
      count := st1.count - finished }
  (st2, if st2.closedSeen ∧ st2.count = 0 then .ready else .pending)

/-- Embeds `Parallel::run` building the initial `ParallelFuture`
(`src/crates/control/src/automations/parallel.rs`, `Parallel::run`):
`running: Vec::with_capacity(self.max_parallel)` allocates capacity
`maxParallel` but the vector has LENGTH 0 — `Vec::with_capacity(n).len()
== 0` — so the `running` list starts empty regardless of `maxParallel`;
`count` starts at 0 and the fused input has not yielded `None` yet. -/
def parallelInit (maxParallel : Nat) (script : List (Ev α)) : PSt α :=
  { script := script, closedSeen := false, running := [], count := 0 }

/-- Poll the `ParallelFuture` repeatedly, at the given sequence of times
(the executor may re-poll at any times); returns the final state and the
result of every poll. -/
def parallelSteps (A : Act α) (st : PSt α) : List Nat → PSt α × List PollRes
  | [] => (st, [])
  | τ :: τs =>
    let p := parallelPoll A st τ
    let rest := parallelSteps A p.1 τs
    (rest.1, p.2 :: rest.2)

/-- The trigger script of spec property 4: with `max_parallel_runs = 2`,
four triggers all ready at time 0, followed by stream closure. -/
def fourTriggerScript : List (Ev Nat) :=
  [⟨0, some 1⟩, ⟨0, some 2⟩, ⟨0, some 3⟩, ⟨0, some 4⟩, ⟨0, none⟩]

/-- A trigger stream that is closed from the start (exhausted immediately). -/
def closedScript : List (Ev Nat) := [⟨0, none⟩]

/-- Resolution time of `futures::future::join(a, b)`: ready exactly when
both of its futures have resolved. -/
def joinTime : Option Nat → Option Nat → Option Nat
  | some a, some b => some (max a b)
  | _, _ => none

/-- Resolution time of a two-way `futures::select!` / race: ready as soon
as either side is. -/
def raceTime : Option Nat → Option Nat → Option Nat
  | some a, some b => some (min a b)
  | some a, none => some a
  | none, some b => some b
  | none, none => none

/-- A future awaited from time `s` on: it cannot resolve before `s`. -/
def afterTime (s : Nat) : Option Nat → Option Nat
  | some d => some (max s d)
  | none => none

/-- Resolution time of `join_all(tasks)` / sequentially awaiting every task
(`for task in tasks { task.await }` in `run_automations`): ready once all
tasks are; `none` stands for a task that never completes. -/
def awaitAll : List (Option Nat) → Option Nat
  | [] => some 0
  | d :: rest => joinTime d (awaitAll rest)

/-- Embeds `run_automations` of `src/crates/control/src/automations.rs`:
it spawns every automation future and `block_on`s awaiting each task in
turn, so it returns exactly when all run-loop tasks have completed, and
blocks forever if any task never completes.  There is no shutdown-signal
input. -/
def runAutomationsReturn (tasksDone : List (Option Nat)) : Option Nat :=
  awaitAll tasksDone

/-- Embeds the future returned by `Manager::start` of `src/src/lib.rs`
(the `async-executor` entry point).  `signalAt` is the time the `Signals`
stream (SIGTERM/SIGINT) yields (`none` = no signal ever fires);
`tasksDone` gives each spawned run-loop task's completion time.  The body
is `async move { termination.next().await; select! { _ = join_all(tasks)
=> {}, _ = timer(1000ms) => {} } }`: the FIRST await is the shutdown
signal, then the task join is raced against the grace timer started at the
signal. -/
def managerStart (grace : Nat) (signalAt : Option Nat)
    (tasksDone : List (Option Nat)) : Option Nat :=
  match signalAt with
  | none => none
  | some ts => raceTime (afterTime ts (awaitAll tasksDone)) (some (ts + grace))

/-- Embeds the signal listener spawned by `Manager::start` of
`src/crates/control/src/manager.rs`: `let termination =
futures::future::join(interrupt.recv(), terminate.recv());
termination.await; token.cancel();` — the cancellation token is cancelled
only once BOTH the SIGINT future and the SIGTERM future have resolved.
Arguments are the times the two signals arrive (`none` = never); the
result is the time `token.cancel()` runs. -/
def tokenCancelTime (interruptAt terminateAt : Option Nat) : Option Nat :=
  joinTime interruptAt terminateAt

mutual

/-- Embeds the `AutomationSet` trait of
`src/crates/control/src/automations.rs` together with its implementors:
`auto` is the blanket impl for a single `Automation` (one run-loop future,
`τ` abstracting the future), `tuple` the macro-generated fixed-arity tuple
impls of `src/crates/macros-impl/src/automation_set.rs` (generated for
arities 1..=21), and `dyn_` the impl for `Vec<Box<dyn AutomationSet>>`. -/
inductive ASet (τ : Type) where
  | auto : τ → ASet τ
  | tuple : ASets τ → ASet τ
  | dyn_ : ASets τ → ASet τ

/-- The ordered children of a composite `AutomationSet` (tuple components
in index order, or the elements of the `Vec`). -/
inductive ASets (τ : Type) where
  | nil : ASets τ
  | cons : ASet τ → ASets τ → ASets τ

end

/-- The children of an `ASets` as a plain list. -/
def ASets.toList : ASets τ → List (ASet τ)
  | .nil => []
  | .cons c cs => c :: cs.toList

mutual

/-- Embeds `AutomationSet::size`: 1 for a single automation (`fn size() ->
usize { 1 }`); for a tuple the macro emits `let mut count = 0; count +=
self.0.size(); ...`; for the `Vec` impl `self.iter().map(|set|
set.size()).sum()`. -/
def ASet.size : ASet τ → Nat
  | .auto _ => 1
  | .tuple cs => cs.sizeSum
  | .dyn_ cs => cs.sizeSum

/-- Sum of the children's sizes, in child order. -/
def ASets.sizeSum : ASets τ → Nat
  | .nil => 0
  | .cons c cs => c.size + cs.sizeSum

end

mutual

/-- Embeds `AutomationSet::futures(&mut self, futures: &mut Vec<_>)`: the
accumulator is the `Vec` passed in; a single automation pushes its one run
future (`futures.push(Box::pin(self.run()))`); a tuple calls
`self.0.i.futures(futures)` for each component in index order; the `Vec`
impl iterates its elements in order. -/
def ASet.futures : ASet τ → List τ → List τ
  | .auto a, acc => acc ++ [a]
  | .tuple cs, acc => cs.futuresAll acc
  | .dyn_ cs, acc => cs.futuresAll acc

/-- Append the futures of each child in order into the accumulator. -/
def ASets.futuresAll : ASets τ → List τ → List τ
  | .nil, acc => acc
  | .cons c cs, acc => cs.futuresAll (c.futures acc)

end

/-- Materializing a set: collecting its futures into a fresh vector, as
`run_automations` and `Manager::start` do (`let mut futures =
Vec::with_capacity(automations.size()); automations.futures(&mut
futures);`). -/
def ASet.materialize (s : ASet τ) : List τ :=
  s.futures []

/-- A script made of triggers (with arrival times) followed by the closed
signal at time `ac`. -/
def toScript (evs : List (Nat × α)) (ac : Nat) : List (Ev α) :=
  evs.map (fun p => ⟨p.1, some p.2⟩) ++ [⟨ac, none⟩]

/-- The trace the `queued` run loop is expected to produce on a trigger
list: each trigger is dispatched in arrival order, an invocation starting
when the previous one has resolved and the trigger has arrived. -/
def queuedTrace (A : Act α) : Nat → List (Nat × α) → List (Inv α)
  | _, [] => []
  | now, (a, t) :: rest =>
    ⟨t, max now a, max now a + A.dur t, some (A.out t)⟩ ::
      queuedTrace A (max now a + A.dur t) rest

/-- The log message of a failing outcome. -/
def errMsg : Outcome → Option String
  | .err m => some m
  | _ => none

/-- The outcome-independent shape of a run-loop result: whether the loop
unwound, whether its future resolved, and the invocations with the
per-invocation results erased. -/
def shapeOf : RunRes α → Bool × Bool × List (α × Nat × Nat)
  | .error tr => (false, false, tr.map fun i => (i.trig, i.start, i.stop))
  | .ok (tr, b) => (true, b, tr.map fun i => (i.trig, i.start, i.stop))

/-- A concrete action whose invocation duration equals the trigger value
and which fails on trigger 2. -/
def actDemo : Act Nat :=
  ⟨fun t => t, fun t => if t = 2 then .err "demo failure" else .ok⟩

/-- A concrete action that panics on trigger 1 and succeeds otherwise,
every invocation taking one time unit. -/
def actPanics1 : Act Nat :=
  ⟨fun _ => 1, fun t => if t = 1 then .panicked else .ok⟩

/-- A concrete action like `actDemo` in durations but failing on every
trigger. -/
def actAllErr : Act Nat :=
  ⟨fun t => t, fun _ => .err "always"⟩

theorem parallelPoll_stuck (A : Act α) (s : List (Ev α)) (τ : Nat) :
    parallelPoll A ⟨s, false, [], 0⟩ τ = (⟨s, false, [], 0⟩, .pending) := by
  simp [parallelPoll]

theorem parallelSteps_stuck (A : Act α) (s : List (Ev α)) (τs : List Nat) :
    parallelSteps A ⟨s, false, [], 0⟩ τs
      = (⟨s, false, [], 0⟩, τs.map fun _ => PollRes.pending) := by
  induction τs with
  | nil => rfl
  | cons τ τs ih => simp [parallelSteps, parallelPoll_stuck, ih]

/-- Claim C1: the claim states that for `parallel(name, max_parallel_runs,
input, action)`, triggers start concurrent invocations up to the maximum,
no trigger is dropped and every trigger's invocation completes (with max=2
and four simultaneous triggers, two invocations are in flight until slots
free and all four complete).  The code does the opposite: `Parallel::run`
initialises `running: Vec::with_capacity(max_parallel)`, a vector of
LENGTH 0, so the guard `*count < running.len()` in `ParallelFuture::poll`
is `0 < 0` and never holds — the input stream is never polled, no
invocation is ever started, and every poll returns `Pending`.  This
theorem evaluates the embedded code at the claim's own example: with
max=2 and four triggers ready at time 0, after any sequence of polls the
state is unchanged (no trigger consumed, `running` empty, `count = 0`)
and every poll returned `Pending`. -/
theorem C1_parallel_never_starts_any_invocation (A : Act Nat) (τs : List Nat) :
    parallelSteps A (parallelInit 2 fourTriggerScript) τs
      = (parallelInit 2 fourTriggerScript, τs.map fun _ => PollRes.pending) :=
  parallelSteps_stuck A fourTriggerScript τs

/-- Claim C2: the claim states that each policy's run-loop future resolves
exactly when the trigger stream is exhausted and all committed invocations
have completed.  For the `parallel` policy the code violates this: because
`running` starts as a length-0 vector, `ParallelFuture::poll` never polls
the input, so `input.is_terminated()` never becomes true and the final
check `input.is_terminated() && *count == 0` never passes — even for a
trigger stream that is closed from the start, with no invocation ever in
flight, the future returns `Pending` on every poll and never resolves. -/
theorem C2_parallel_run_loop_never_resolves (A : Act Nat) (τs : List Nat) :
    parallelSteps A (parallelInit 3 closedScript) τs
      = (parallelInit 3 closedScript, τs.map fun _ => PollRes.pending) :=
  parallelSteps_stuck A closedScript τs

/-- Claim C4: the claim states that one shutdown signal (a single OS
interrupt) suffices to begin shutdown.  The listener spawned by
`Manager::start` in `src/crates/control/src/manager.rs` runs
`futures::future::join(interrupt.recv(), terminate.recv()).await;
token.cancel();`, and `join` resolves only when BOTH futures have: with
only SIGINT (at time 0) and no SIGTERM, `token.cancel()` never runs and
no cancellation is ever broadcast; symmetrically for SIGTERM alone; only
when both signals have arrived is the token cancelled (at the later of
the two times). -/
theorem C4_cancel_requires_both_signals :
    tokenCancelTime (some 0) none = none ∧
    tokenCancelTime none (some 0) = none ∧
    tokenCancelTime (some 0) (some 3) = some 3 :=
  ⟨rfl, rfl, rfl⟩

/-- Claim C3 counterexample: the claim states that when all run-loop tasks
complete naturally, `Manager::start` returns without any shutdown signal
having fired.  In the code the async block's first await is
`termination.next().await`: with the single task completed at time 5 and
no signal ever firing, the future never resolves. -/
theorem C3_counterexample_no_signal_no_return :
    managerStart 1000 none [some 5] = none := rfl

/-- Claim C3 as amended: `run_automations` (which takes no shutdown
signal) returns exactly when every run-loop task has completed — it
resolves iff every task completes, and no earlier than any task's
completion; `Manager::start` however returns only when the shutdown
signal fires: without a signal it never returns, whatever the tasks do,
and once the signal fires at `ts` it returns at some time between `ts`
and `ts + grace`. -/
theorem C3_amended_return_conditions :
    (∀ (g : Nat) (ds : List (Option Nat)), managerStart g none ds = none) ∧
    (∀ (g ts : Nat) (ds : List (Option Nat)),
      ∃ r, managerStart g (some ts) ds = some r ∧ ts ≤ r ∧ r ≤ ts + g) ∧
    (∀ ds : List (Option Nat), (runAutomationsReturn ds).isSome ↔ ∀ d ∈ ds, d.isSome) ∧
    (∀ (ds : List (Option Nat)) (r : Nat), runAutomationsReturn ds = some r →
      ∀ d ∈ ds, ∀ v, d = some v → v ≤ r) := by
  refine ⟨fun g ds => rfl, ?_, ?_, ?_⟩
  · intro g ts ds
    unfold managerStart
    cases h : awaitAll ds with
    | none => exact ⟨ts + g, by simp [raceTime, afterTime], Nat.le_add_right ts g, Nat.le_refl _⟩
    | some d =>
      refine ⟨min (max ts d) (ts + g), by simp [raceTime, afterTime], ?_, ?_⟩
      · exact le_min (Nat.le_max_left ts d) (Nat.le_add_right ts g)
      · exact min_le_right _ _
  · intro ds
    induction ds with
    | nil => simp [runAutomationsReturn, awaitAll]
    | cons d ds ih =>
      simp only [runAutomationsReturn, awaitAll] at *
      constructor
      · intro h e he
        cases d with
        | none => simp [joinTime] at h
        | some v =>
          cases hr : awaitAll ds with
          | none => rw [hr] at h; simp [joinTime] at h
          | some r =>
            rcases List.mem_cons.mp he with he | he
            · simp [he]
            · exact (ih.mp (by simp [hr])) e he
      · intro h
        have hd : d.isSome := h d (by simp)
        have hds : (awaitAll ds).isSome := ih.mpr fun e he => h e (by simp [he])
        cases d with
        | none => simp at hd
        | some v =>
          cases hr : awaitAll ds with
          | none => rw [hr] at hds; simp at hds
          | some r => simp [joinTime]
  · intro ds
    induction ds with
    | nil => intro r _ d hd; simp at hd
    | cons d ds ih =>
      intro r hr e he v hv
      simp only [runAutomationsReturn, awaitAll] at hr
      cases d with
      | none => simp [joinTime] at hr
      | some w =>
        cases hq : awaitAll ds with
        | none => rw [hq] at hr; simp [joinTime] at hr
        | some q =>
          rw [hq] at hr
          simp only [joinTime, Option.some_inj] at hr
          rcases List.mem_cons.mp he with he | he
          · have : w = v := by rw [he] at hv; exact (Option.some_inj.mp hv)
            subst this
            omega
          · have hq' := ih q (by simp [runAutomationsReturn, hq]) e he v hv
            omega

/-- Claim C3 witness: the amended theorem applied at concrete inputs — a
signal at time 7 with tasks done at 5 and 20 makes `Manager::start`
return between 7 and 1007, and `run_automations` with tasks done at 5 and
20 returns no earlier than 20. -/
theorem C3_amended_witness :
    (∃ r, managerStart 1000 (some 7) [some 5, some 20] = some r ∧ 7 ≤ r ∧ r ≤ 1007) ∧
    (∀ d ∈ [some 5, some (20 : Nat)], ∀ v, d = some v → v ≤ 20) :=
  ⟨C3_amended_return_conditions.2.1 1000 7 [some 5, some 20],
   C3_amended_return_conditions.2.2.2 [some 5, some 20] 20 (by decide)⟩

theorem singleGo_cons_ready (A : Act α) (e : Ev α) (rest : List (Ev α)) (now : Nat)
    (h : e.time ≤ now) :
    singleGo A (e :: rest) now true = singleGo A rest now true := by
  simp [singleGo, h]

theorem singleGo_drain_skip (A : Act α) (now : Nat) :
    ∀ (P rest : List (Ev α)), (∀ e ∈ P, e.time ≤ now) →
      singleGo A (P ++ rest) now true = singleGo A rest now true
  | [], _, _ => rfl
  | e :: P, rest, h => by
    rw [List.cons_append, singleGo_cons_ready A e (P ++ rest) now (h e (by simp))]
    exact singleGo_drain_skip A now P rest fun e' he' => h e' (by simp [he'])

theorem singleGo_handle_eq (A : Act α) (e : Ev α) (rest : List (Ev α)) (now : Nat)
    (h : ¬ e.time ≤ now) :
    singleGo A (e :: rest) now true = singleGo A (e :: rest) now false := by
  simp [singleGo, h]

theorem queuedRun_char (A : Act α) :
    ∀ (evs : List (Nat × α)) (ac now : Nat),
      (∀ p ∈ evs, A.out p.2 ≠ .panicked) →
      queuedRun A (toScript evs ac) now = .ok (queuedTrace A now evs, true)
  | [], _, _, _ => rfl
  | (a, t) :: evs, ac, now, h => by
    have ih := queuedRun_char A evs ac (max now a + A.dur t)
      fun p hp => h p (by simp [hp])
    have hh : toScript ((a, t) :: evs) ac = ⟨a, some t⟩ :: toScript evs ac := by
      simp [toScript]
    rw [hh]
    cases ho : A.out t with
    | panicked => exact absurd ho (h (a, t) (by simp))
    | ok => simp [queuedRun, ho, ih, consE, queuedTrace]
    | err m => simp [queuedRun, ho, ih, consE, queuedTrace]

theorem queuedTrace_map_trig (A : Act α) :
    ∀ (now : Nat) (evs : List (Nat × α)),
      (queuedTrace A now evs).map Inv.trig = evs.map Prod.snd
  | _, [] => rfl
  | now, (a, t) :: evs => by
    simp [queuedTrace, queuedTrace_map_trig A (max now a + A.dur t) evs]

theorem queuedTrace_props (A : Act α) :
    ∀ (now : Nat) (evs : List (Nat × α)), ∀ i ∈ queuedTrace A now evs,
      now ≤ i.start ∧ i.stop = i.start + A.dur i.trig ∧ i.res = some (A.out i.trig)
  | _, [], i, hi => by simp [queuedTrace] at hi
  | now, (a, t) :: evs, i, hi => by
    simp only [queuedTrace, List.mem_cons] at hi
    rcases hi with hi | hi
    · subst hi
      exact ⟨Nat.le_max_left _ _, rfl, rfl⟩
    · have hrec := queuedTrace_props A (max now a + A.dur t) evs i hi
      exact ⟨le_trans (le_trans (Nat.le_max_left now a) (Nat.le_add_right _ _)) hrec.1,
        hrec.2⟩

theorem queuedTrace_chain (A : Act α) :
    ∀ (now : Nat) (evs : List (Nat × α)),
      List.Chain' (fun i j => i.stop ≤ j.start) (queuedTrace A now evs)
  | _, [] => List.chain'_nil
  | now, (a, t) :: evs => by
    rw [queuedTrace, List.chain'_cons']
    refine ⟨fun j hj => ?_, queuedTrace_chain A (max now a + A.dur t) evs⟩
    have hmem : j ∈ queuedTrace A (max now a + A.dur t) evs := List.mem_of_mem_head? hj
    exact (queuedTrace_props A _ evs j hmem).1

theorem queuedTrace_logs (A : Act α) :
    ∀ (now : Nat) (evs : List (Nat × α)),
      logsOf (queuedTrace A now evs) = evs.filterMap fun p => errMsg (A.out p.2)
  | _, [] => rfl
  | now, (a, t) :: evs => by
    have ih := queuedTrace_logs A (max now a + A.dur t) evs
    simp only [queuedTrace, logsOf, List.filterMap_cons] at *
    cases ho : A.out t <;> simp [ho, errMsg, ih]

/-- Claim C7: for the `queued` policy, triggers emitted back-to-back while
the action is slow are dispatched in exact arrival order — the trace's
triggers are the script's triggers in order — and invocation N+1 never
starts before invocation N resolves (`stop ≤ start` along the trace); the
loop then terminates on stream closure.  Hypothesis: no invocation
panics (a panic aborts the loop, see C5). -/
theorem C7_queued_exact_order {α : Type} (A : Act α) (evs : List (Nat × α)) (ac : Nat)
    (hnp : ∀ p ∈ evs, A.out p.2 ≠ .panicked) :
    ∃ tr, queuedRun A (toScript evs ac) 0 = .ok (tr, true) ∧
      tr.map Inv.trig = evs.map Prod.snd ∧
      (∀ i ∈ tr, i.stop = i.start + A.dur i.trig) ∧
      List.Chain' (fun i j => i.stop ≤ j.start) tr :=
  ⟨queuedTrace A 0 evs, queuedRun_char A evs ac 0 hnp, queuedTrace_map_trig A 0 evs,
    fun i hi => (queuedTrace_props A 0 evs i hi).2.1, queuedTrace_chain A 0 evs⟩

/-- Claim C7 witness: three triggers all arriving at time 0 while each
invocation of `actDemo` is slow are dispatched as T1, T2, T3 in order,
without overlap. -/
theorem C7_witness :
    ∃ tr, queuedRun actDemo (toScript [(0, 1), (0, 2), (0, 3)] 100) 0 = .ok (tr, true) ∧
      tr.map Inv.trig = [(0, 1), (0, 2), (0, 3)].map Prod.snd ∧
      (∀ i ∈ tr, i.stop = i.start + actDemo.dur i.trig) ∧
      List.Chain' (fun i j => i.stop ≤ j.start) tr :=
  C7_queued_exact_order actDemo [(0, 1), (0, 2), (0, 3)] 100 (by decide)

theorem shapeOf_consE (i : Inv α) (r : RunRes α) :
    shapeOf (consE i r)
      = ((shapeOf r).1, (shapeOf r).2.1, (i.trig, i.start, i.stop) :: (shapeOf r).2.2) := by
  cases r with
  | error tr => rfl
  | ok p => cases p; rfl

theorem single_shape_indep (A A' : Act α) (hdur : A.dur = A'.dur)
    (h1 : ∀ t, A.out t ≠ .panicked) (h2 : ∀ t, A'.out t ≠ .panicked) :
    ∀ s : List (Ev α),
      (∀ now, shapeOf (singleGo A s now false) = shapeOf (singleGo A' s now false)) ∧
      (∀ now, shapeOf (singleGo A s now true) = shapeOf (singleGo A' s now true)) := by
  intro s
  induction s with
  | nil => exact ⟨fun _ => rfl, fun _ => rfl⟩
  | cons e rest ih =>
    have hfalse : ∀ now,
        shapeOf (singleGo A (e :: rest) now false)
          = shapeOf (singleGo A' (e :: rest) now false) := by
      intro now
      cases hv : e.val with
      | none => simp [singleGo, hv]
      | some t =>
        cases hoA : A.out t <;> cases hoA' : A'.out t <;>
          first
            | exact absurd hoA (h1 t)
            | exact absurd hoA' (h2 t)
            | simp [singleGo, hv, hoA, hoA', shapeOf_consE, hdur, ih.2 _]
    refine ⟨hfalse, fun now => ?_⟩
    by_cases hr : e.time ≤ now
    · rw [singleGo_cons_ready A e rest now hr, singleGo_cons_ready A' e rest now hr]
      exact ih.2 now
    · rw [singleGo_handle_eq A e rest now hr, singleGo_handle_eq A' e rest now hr]
      exact hfalse now

/-- Claim C5 counterexample: the claim states that a panic inside an
invocation is caught and treated identically to a returned failure, the
loop continuing with subsequent triggers.  None of the policy run loops
contains any `catch_unwind` around `self.automation.run(trigger).await`:
evaluating the embedded `queued` run loop on a script where trigger 1's
invocation panics and trigger 2 follows, the run-loop future unwinds
after the first invocation (`.error`), trigger 2 is never dispatched, and
the loop never reaches its normal termination. -/
theorem C5_counterexample_panic_unwinds_loop :
    queuedRun actPanics1 [⟨0, some 1⟩, ⟨1, some 2⟩, ⟨2, none⟩] 0
      = .error [⟨1, 0, 1, some .panicked⟩] := rfl

/-- Claim C5 as amended: an invocation's returned failure is logged with
the failure description and never terminates the run loop nor affects
subsequent triggers — for the `queued` loop (queued.rs lines 37-41) every
trigger is dispatched whatever mix of `Ok`/`Err` outcomes, the `Err`
messages being the logged lines; for the `single` loop (single.rs lines
39-43) the invocations performed, their times and the loop's fate are
identical for any two panic-free actions with the same durations,
whatever their `Ok`/`Err` outcomes.  A panic, however, is NOT caught by
the policy run loops: it propagates out of the run loop, which unwinds
at once and dispatches none of the later triggers (panics are caught
only at task boundaries in `control::manager::Manager::start`, outside
the four policies). -/
theorem C5_amended_errors_isolated_panics_propagate :
    (∀ (α : Type) (A : Act α) (evs : List (Nat × α)) (ac now : Nat),
      (∀ p ∈ evs, A.out p.2 ≠ .panicked) →
      queuedRun A (toScript evs ac) now = .ok (queuedTrace A now evs, true) ∧
      (queuedTrace A now evs).map Inv.trig = evs.map Prod.snd ∧
      logsOf (queuedTrace A now evs) = evs.filterMap fun p => errMsg (A.out p.2)) ∧
    (∀ (α : Type) (A : Act α) (a : Nat) (t : α) (rest : List (Ev α)) (now : Nat),
      A.out t = .panicked →
      queuedRun A (⟨a, some t⟩ :: rest) now
        = .error [⟨t, max now a, max now a + A.dur t, some .panicked⟩]) ∧
    (∀ (α : Type) (A A' : Act α), A.dur = A'.dur →
      (∀ t, A.out t ≠ .panicked) → (∀ t, A'.out t ≠ .panicked) →
      ∀ (s : List (Ev α)) (now : Nat) (b : Bool),
        shapeOf (singleGo A s now b) = shapeOf (singleGo A' s now b)) := by
  refine ⟨?_, ?_, ?_⟩
  · intro α A evs ac now hnp
    exact ⟨queuedRun_char A evs ac now hnp, queuedTrace_map_trig A now evs,
      queuedTrace_logs A now evs⟩
  · intro α A a t rest now h
    simp [queuedRun, h]
  · intro α A A' hdur h1 h2 s now b
    cases b with
    | false => exact (single_shape_indep A A' hdur h1 h2 s).1 now
    | true => exact (single_shape_indep A A' hdur h1 h2 s).2 now

/-- Claim C5 witness: the amended theorem at concrete inputs — the queued
loop with a failing second trigger still dispatches both triggers and
terminates, logging the failure; a panicking first trigger unwinds the
loop before trigger 2; and the single loop behaves identically for the
always-failing action and the mostly-succeeding one of equal durations. -/
theorem C5_amended_witness :
    (queuedRun actDemo (toScript [(0, 1), (0, 2)] 9) 0
        = .ok (queuedTrace actDemo 0 [(0, 1), (0, 2)], true) ∧
      (queuedTrace actDemo 0 [(0, 1), (0, 2)]).map Inv.trig
        = [(0, 1), (0, 2)].map Prod.snd ∧
      logsOf (queuedTrace actDemo 0 [(0, 1), (0, 2)])
        = [(0, 1), (0, 2)].filterMap fun p => errMsg (actDemo.out p.2)) ∧
    (queuedRun actPanics1 (⟨0, some 1⟩ :: [⟨1, some 2⟩]) 0
      = .error [⟨1, max 0 0, max 0 0 + actPanics1.dur 1, some .panicked⟩]) ∧
    (shapeOf (singleGo actDemo [⟨0, some 3⟩, ⟨1, some 4⟩, ⟨9, none⟩] 0 false)
      = shapeOf (singleGo actAllErr [⟨0, some 3⟩, ⟨1, some 4⟩, ⟨9, none⟩] 0 false)) :=
  ⟨C5_amended_errors_isolated_panics_propagate.1 Nat actDemo [(0, 1), (0, 2)] 9 0
      (by decide),
    C5_amended_errors_isolated_panics_propagate.2.1 Nat actPanics1 0 1 [⟨1, some 2⟩] 0
      (by decide),
    C5_amended_errors_isolated_panics_propagate.2.2 Nat actDemo actAllErr rfl
      (fun t => by by_cases h : t = 2 <;> simp [actDemo, h])
      (fun t => by simp [actAllErr])
      [⟨0, some 3⟩, ⟨1, some 4⟩, ⟨9, none⟩] 0 false⟩

/-- Claim C6: for the `cancel` policy, if trigger T2 becomes ready (at
`max a1 a2`, once T1's invocation has started at `a1`) strictly before
T1's invocation resolves (at `a1 + dur t1`), then `select_biased!` takes
the `input.next()` branch: T1's invocation future is dropped at that
moment without resolving — its record carries `res = none`, so a side
effect placed at the very end of the invocation is never observed — and
T2's invocation then runs to completion (stream closure arriving only
after it resolves, and T2's invocation not panicking). -/
theorem C6_cancel_drops_suspended_invocation {α : Type} (A : Act α) (t1 t2 : α)
    (a1 a2 ac : Nat)
    (hbusy : max a1 a2 < a1 + A.dur t1)
    (hclose : max a1 a2 + A.dur t2 ≤ ac)
    (hnp2 : A.out t2 ≠ .panicked) :
    cancelRun A [⟨a1, some t1⟩, ⟨a2, some t2⟩, ⟨ac, none⟩]
      = .ok ([⟨t1, a1, max a1 a2, none⟩,
          ⟨t2, max a1 a2, max a1 a2 + A.dur t2, some (A.out t2)⟩], true) := by
  have hnl : ¬ max (max a1 a2) ac < max a1 a2 + A.dur t2 :=
    not_lt.mpr (le_trans hclose (Nat.le_max_right _ _))
  cases ho2 : A.out t2 with
  | panicked => exact absurd ho2 hnp2
  | ok => simp [cancelRun, cancelGo, hbusy, hnl, ho2, consE]
  | err m => simp [cancelRun, cancelGo, hbusy, hnl, ho2, consE]

/-- Claim C6 witness: the theorem at a concrete input — T1 (duration 5)
starts at 0, T2 arrives at 3 and cancels it there (`res = none`), T2's
invocation (duration 1) completes at 4, and the loop terminates on the
closure at 20. -/
theorem C6_witness :
    cancelRun actDemo [⟨0, some 5⟩, ⟨3, some 1⟩, ⟨20, none⟩]
      = .ok ([⟨5, 0, max 0 3, none⟩,
          ⟨1, max 0 3, max 0 3 + actDemo.dur 1, some (actDemo.out 1)⟩], true) :=
  C6_cancel_drops_suspended_invocation actDemo 5 1 0 3 20 (by decide) (by decide)
    (by decide)

/-- Claim C8: for the `single` policy, every trigger arriving strictly
before the running invocation completes (the entries of `mid`, all with
`time < a1 + dur t1`) is consumed by the post-invocation drain and never
passed to the action, while a trigger arriving strictly after the
invocation completes (`t3` at `a3 > a1 + dur t1`) IS passed to the
action: the run loop performs exactly the invocations for `t1` and `t3`. -/
theorem C8_single_ignores_triggers_while_busy {α : Type} (A : Act α) (t1 t3 : α)
    (a1 a3 ac : Nat) (mid : List (Ev α))
    (hmid_trig : ∀ e ∈ mid, e.val.isSome)
    (hmid : ∀ e ∈ mid, e.time < a1 + A.dur t1)
    (h3 : a1 + A.dur t1 < a3)
    (hc : a3 + A.dur t3 < ac)
    (hnp1 : A.out t1 ≠ .panicked) (hnp3 : A.out t3 ≠ .panicked) :
    singleRun A (⟨a1, some t1⟩ :: mid ++ ⟨a3, some t3⟩ :: [⟨ac, none⟩])
      = .ok ([⟨t1, a1, a1 + A.dur t1, some (A.out t1)⟩,
          ⟨t3, a3, a3 + A.dur t3, some (A.out t3)⟩], true) := by
  have hstop1 : ∀ e ∈ mid, e.time ≤ a1 + A.dur t1 := fun e he => le_of_lt (hmid e he)
  have hdrop := singleGo_drain_skip A (a1 + A.dur t1) mid
    (⟨a3, some t3⟩ :: [⟨ac, none⟩]) hstop1
  have hn3 : ¬ a3 ≤ a1 + A.dur t1 := not_le.mpr h3
  have hnc : ¬ ac ≤ a3 + A.dur t3 := not_le.mpr hc
  cases ho1 : A.out t1 <;> cases ho3 : A.out t3 <;>
    first
      | exact absurd ho1 hnp1
      | exact absurd ho3 hnp3
      | simp [singleRun, singleGo, ho1, ho3, hdrop, hn3, hnc, consE,
          Nat.max_eq_right (Nat.zero_le a1), Nat.max_eq_right (le_of_lt h3)]

/-- Claim C8 witness: the theorem at a concrete input — trigger 4
(duration 4) runs from 0 to 4; triggers arriving at 1 and 2 (both before
completion) are never passed to the action; trigger 1 arriving at 5
(after completion) is passed and runs from 5 to 6. -/
theorem C8_witness :
    singleRun actDemo (⟨0, some 4⟩ :: [⟨1, some 9⟩, ⟨2, some 9⟩] ++ ⟨5, some 1⟩ :: [⟨10, none⟩])
      = .ok ([⟨4, 0, 0 + actDemo.dur 4, some (actDemo.out 4)⟩,
          ⟨1, 5, 5 + actDemo.dur 1, some (actDemo.out 1)⟩], true) :=
  C8_single_ignores_triggers_while_busy actDemo 4 1 0 5 10 [⟨1, some 9⟩, ⟨2, some 9⟩]
    (by decide) (by decide) (by decide) (by decide) (by decide) (by decide)

/-- Claim C10: after an invocation of the `single` policy finishes at
`now`, the drain loop consumes every immediately-ready stream item (every
entry of `P` with `time ≤ now`) and discards each one without invoking
the action and without keeping any of them: the remainder of the run is
literally the run on the script without `P`, whatever the entries of `P`
were — in particular an immediately-ready closed signal inside `P` is
consumed like a trigger and does not terminate the run loop at that
point. -/
theorem C10_single_drain_discards_ready_items {α : Type} (A : Act α) (now : Nat)
    (P rest : List (Ev α)) (hready : ∀ e ∈ P, e.time ≤ now) :
    singleGo A (P ++ rest) now true = singleGo A rest now true :=
  singleGo_drain_skip A now P rest hready

/-- Claim C10 witness: the theorem at a concrete input — at time 2 the
drain consumes a ready trigger (arrived at 0) and a ready closed signal
(arrived at 1) alike, and the run continues on the rest of the script
instead of terminating. -/
theorem C10_witness :
    singleGo actDemo ([⟨0, some 9⟩, ⟨1, none⟩] ++ [⟨5, some 7⟩, ⟨6, none⟩]) 2 true
      = singleGo actDemo [⟨5, some 7⟩, ⟨6, none⟩] 2 true :=
  C10_single_drain_discards_ready_items actDemo 2 [⟨0, some 9⟩, ⟨1, none⟩]
    [⟨5, some 7⟩, ⟨6, none⟩] (by decide)

mutual

theorem ASet.futures_append {τ : Type} : ∀ (s : ASet τ) (acc : List τ),
    s.futures acc = acc ++ s.futures []
  | .auto a, acc => by simp [ASet.futures]
  | .tuple cs, acc => by
    simp only [ASet.futures]
    exact ASets.futuresAll_append cs acc
  | .dyn_ cs, acc => by
    simp only [ASet.futures]
    exact ASets.futuresAll_append cs acc

theorem ASets.futuresAll_append {τ : Type} : ∀ (cs : ASets τ) (acc : List τ),
    cs.futuresAll acc = acc ++ cs.futuresAll []
  | .nil, acc => by simp [ASets.futuresAll]
  | .cons c cs, acc => by
    simp only [ASets.futuresAll]
    rw [ASets.futuresAll_append cs (c.futures acc), ASet.futures_append c acc,
      ASets.futuresAll_append cs (c.futures [])]
    simp

end

mutual

theorem ASet.length_futures {τ : Type} : ∀ s : ASet τ, (s.futures []).length = s.size
  | .auto a => by simp [ASet.futures, ASet.size]
  | .tuple cs => by
    simp only [ASet.futures, ASet.size]
    exact ASets.length_futuresAll cs
  | .dyn_ cs => by
    simp only [ASet.futures, ASet.size]
    exact ASets.length_futuresAll cs

theorem ASets.length_futuresAll {τ : Type} : ∀ cs : ASets τ,
    (cs.futuresAll []).length = cs.sizeSum
  | .nil => rfl
  | .cons c cs => by
    rw [ASets.futuresAll, ASets.futuresAll_append cs (c.futures [])]
    simp [ASet.length_futures c, ASets.length_futuresAll cs, ASets.sizeSum]

end

theorem ASets.futuresAll_join {τ : Type} : ∀ cs : ASets τ,
    cs.futuresAll [] = (cs.toList.map ASet.materialize).flatten
  | .nil => rfl
  | .cons c cs => by
    rw [ASets.futuresAll, ASets.futuresAll_append cs (c.futures [])]
    simp [ASets.toList, ASet.materialize, ASets.futuresAll_join cs]

theorem ASets.sizeSum_toList {τ : Type} : ∀ cs : ASets τ,
    cs.sizeSum = (cs.toList.map ASet.size).sum
  | .nil => rfl
  | .cons c cs => by simp [ASets.sizeSum, ASets.toList, ASets.sizeSum_toList cs]

/-- Claim C9: for every automation set — a single automation, a tuple of
sets (the macro covers arities 1..=21; the statement holds for every
arity), or a Vec of boxed sets — `futures` appends exactly
`materialize s` to the vector it is given, the number of appended futures
equals `size` (a single automation contributing 1), a composite's size is
the sum of its children's sizes, and materializing a composite is the
concatenation of materializing each child in child order; the first two
conjuncts quantify over every set, so the equalities hold recursively at
every nesting depth. -/
theorem C9_set_size_materialize_contract :
    (∀ (τ : Type) (s : ASet τ) (acc : List τ), s.futures acc = acc ++ s.materialize) ∧
    (∀ (τ : Type) (s : ASet τ), s.materialize.length = s.size) ∧
    (∀ (τ : Type) (a : τ), (ASet.auto a).size = 1 ∧ (ASet.auto a).materialize = [a]) ∧
    (∀ (τ : Type) (cs : ASets τ),
      (ASet.tuple cs).size = (cs.toList.map ASet.size).sum ∧
      (ASet.dyn_ cs).size = (cs.toList.map ASet.size).sum ∧
      (ASet.tuple cs).materialize = (cs.toList.map ASet.materialize).flatten ∧
      (ASet.dyn_ cs).materialize = (cs.toList.map ASet.materialize).flatten) :=
  ⟨fun _ s acc => ASet.futures_append s acc,
    fun _ s => ASet.length_futures s,
    fun _ a => ⟨rfl, rfl⟩,
    fun _ cs =>
      ⟨ASets.sizeSum_toList cs, ASets.sizeSum_toList cs,
        ASets.futuresAll_join cs, ASets.futuresAll_join cs⟩⟩

end HomeControl
